import Mathlib

/-!
Verification of the osm-to-3dprint geometry core: mesh arena (prism
builders, fan triangulator, line bufferer), building-height fallback,
layer height scaling, and the ASCII STL serializer/validator.

Numbers are modelled as exact rationals.  `Math.sqrt` is modelled by an
explicit square-root oracle parameter `sqrtFn`; theorems that need exact
distances take the hypothesis that the oracle is exact on the relevant
value.
-/

/-- A 2-D point of a polygon ring or polyline. -/
abbrev Pt := ℚ × ℚ

/-- A 3-D vertex of the mesh. -/
abbrev Vtx := ℚ × ℚ × ℚ

/-- The mesh arena: append-only vertex and face lists.  A face is a list
of indices into the vertex list (always length 3 for faces built here). -/
structure Mesh where
  vertices : List Vtx
  faces : List (List ℕ)
deriving DecidableEq, Repr

/-- The empty arena (fresh `GeometryProcessor` / after `reset()`). -/
def Mesh.empty : Mesh := ⟨[], []⟩

/-- `createSolidBase(baseSize, baseThickness)`: the fixed 8-vertex /
12-face rectangular base plate, returned as a fresh mesh. -/
def createSolidBase (baseSize baseThickness : ℚ) : Mesh :=
  { vertices :=
      [ (0, 0, 0), (baseSize, 0, 0), (baseSize, baseSize, 0), (0, baseSize, 0),
        (0, 0, baseThickness), (baseSize, 0, baseThickness),
        (baseSize, baseSize, baseThickness), (0, baseSize, baseThickness) ],
    faces :=
      [ [0, 1, 5], [0, 5, 4],
        [1, 2, 6], [1, 6, 5],
        [2, 3, 7], [2, 7, 6],
        [3, 0, 4], [3, 4, 7],
        [4, 5, 6], [4, 6, 7],
        [0, 1, 2], [0, 2, 3] ] }

/-- The duplicate-closing-point cleanup shared by the prism builders and
the triangulator: drop the last point when it equals the first
(coordinate-wise), as in `coords.slice(0, -1)`. -/
def cleanRing (coords : List Pt) : List Pt :=
  if 0 < coords.length ∧ coords.head? = coords.getLast? then
    coords.dropLast
  else
    coords

/-- `addPrismFromPolygon(coords, z0, z1)`: the "simple" prism builder.
Rejects rings with fewer than 3 raw points or more than 500 cleaned
points; otherwise pushes 2n interleaved (bottom, top) vertices, 2 side
triangles per edge, and fan cap triangles over the interleaved index
pattern. -/
def addPrismFromPolygon (m : Mesh) (coords : List Pt) (z0 z1 : ℚ) : Mesh :=
  if coords.length < 3 then m
  else
    let clean := cleanRing coords
    let n := clean.length
    if n > 500 then m
    else
      let baseIndex := m.vertices.length
      let newVerts := clean.flatMap (fun p => [(p.1, p.2, z0), (p.1, p.2, z1)])
      let sideFaces := (List.range n).flatMap (fun i =>
        let iNext := (i + 1) % n
        [ [baseIndex + 2*i, baseIndex + 2*iNext, baseIndex + 2*i + 1],
          [baseIndex + 2*i + 1, baseIndex + 2*iNext, baseIndex + 2*iNext + 1] ])
      let capFaces := (List.range' 1 (n - 2)).flatMap (fun i =>
        [ [baseIndex, baseIndex + 2*(i+1), baseIndex + 2*i],
          [baseIndex + 1, baseIndex + 1 + 2*i, baseIndex + 1 + 2*(i+1)] ])
      { vertices := m.vertices ++ newVerts,
        faces := m.faces ++ sideFaces ++ capFaces }

/-- `triangulatePolygon(coords)`: fan triangulation.  Rejects inputs with
fewer than 3 or more than 1000 raw points, applies the closing-point
cleanup, re-checks the bounds on the cleaned ring, then returns the
triangles (0, i, i+1) for i = 1 .. n-2. -/
def triangulatePolygon (coords : List Pt) : List (ℕ × ℕ × ℕ) :=
  if coords.length < 3 ∨ coords.length > 1000 then []
  else
    let clean := cleanRing coords
    if clean.length < 3 ∨ clean.length > 1000 then []
    else
      (List.range' 1 (clean.length - 2)).map (fun i => (0, i, i + 1))

/-- `addPrismFromPolygonTriangulated(coords, z0, z1)`: the "triangulated"
prism builder.  Rejects rings with <3 or >1000 raw or cleaned points;
triangulates the cleaned ring with `triangulatePolygon` (returning
unchanged when that yields no triangles); pushes the bottom vertex block
then the top vertex block; emits cap faces by re-indexing the triangles
into each block (bottom winding reversed) and 2 wall triangles per edge. -/
def addPrismFromPolygonTriangulated (m : Mesh) (coords : List Pt) (z0 z1 : ℚ) : Mesh :=
  if coords.length < 3 ∨ coords.length > 1000 then m
  else
    let clean := cleanRing coords
    if clean.length < 3 ∨ clean.length > 1000 then m
    else
      let n := clean.length
      let triangles := triangulatePolygon clean
      if triangles.length = 0 then m
      else
        let bottomStart := m.vertices.length
        let topStart := bottomStart + n
        let bottomVerts := clean.map (fun p => (p.1, p.2, z0))
        let topVerts := clean.map (fun p => (p.1, p.2, z1))
        let capFaces := triangles.flatMap (fun tri =>
          [ [bottomStart + tri.1, bottomStart + tri.2.2, bottomStart + tri.2.1],
            [topStart + tri.1, topStart + tri.2.1, topStart + tri.2.2] ])
        let wallFaces := (List.range n).flatMap (fun i =>
          let j := (i + 1) % n
          [ [bottomStart + i, bottomStart + j, topStart + i],
            [topStart + i, bottomStart + j, topStart + j] ])
        { vertices := m.vertices ++ bottomVerts ++ topVerts,
          faces := m.faces ++ capFaces ++ wallFaces }

-- Basic cleanup facts shared by several claims.

theorem cleanRing_length_le (coords : List Pt) :
    (cleanRing coords).length ≤ coords.length := by
  unfold cleanRing
  split
  · exact (coords.length_dropLast) ▸ Nat.sub_le _ _
  · exact le_refl _

theorem cleanRing_length_ge (coords : List Pt) :
    coords.length - 1 ≤ (cleanRing coords).length := by
  unfold cleanRing
  split
  · simp
  · exact Nat.sub_le _ _ |>.trans (le_refl _)

theorem length_flatMap_pair {α β : Type _} (l : List α) (f g : α → β) :
    (l.flatMap fun a => [f a, g a]).length = 2 * l.length := by
  induction l with
  | nil => rfl
  | cons a t ih => simp [List.flatMap_cons, List.length_cons, ih]; omega

/-- C1: for a ring whose cleaned point count n satisfies 3 ≤ n ≤ 500, the
simple prism builder appends exactly 2n interleaved (bottom, top)
vertices and 2n + 2(n−2) faces. -/
theorem addPrismFromPolygon_counts
    (m : Mesh) (coords : List Pt) (z0 z1 : ℚ) (n : ℕ)
    (hn : (cleanRing coords).length = n) (h3 : 3 ≤ n) (h500 : n ≤ 500) :
    (addPrismFromPolygon m coords z0 z1).vertices =
      m.vertices ++
        (cleanRing coords).flatMap (fun p => [(p.1, p.2, z0), (p.1, p.2, z1)]) ∧
    (addPrismFromPolygon m coords z0 z1).vertices.length =
      m.vertices.length + 2 * n ∧
    (addPrismFromPolygon m coords z0 z1).faces.length =
      m.faces.length + (2 * n + 2 * (n - 2)) := by
  have hraw : ¬ coords.length < 3 := by
    have := cleanRing_length_le coords
    omega
  unfold addPrismFromPolygon
  rw [if_neg hraw, if_neg (by omega : ¬ (cleanRing coords).length > 500)]
  refine ⟨rfl, ?_, ?_⟩
  · rw [List.length_append, length_flatMap_pair, hn]
  · simp only [List.length_append]
    rw [length_flatMap_pair, length_flatMap_pair]
    simp [hn]
    omega

/-- C1 witness: a concrete triangle appends 6 vertices and 8 faces. -/
theorem addPrismFromPolygon_counts_witness :
    (addPrismFromPolygon Mesh.empty [(0,0),(1,0),(0,1)] 0 1).vertices =
      Mesh.empty.vertices ++
        (cleanRing [(0,0),(1,0),(0,1)]).flatMap
          (fun p => [(p.1, p.2, 0), (p.1, p.2, 1)]) ∧
    (addPrismFromPolygon Mesh.empty [(0,0),(1,0),(0,1)] 0 1).vertices.length =
      Mesh.empty.vertices.length + 2 * 3 ∧
    (addPrismFromPolygon Mesh.empty [(0,0),(1,0),(0,1)] 0 1).faces.length =
      Mesh.empty.faces.length + (2 * 3 + 2 * (3 - 2)) :=
  addPrismFromPolygon_counts Mesh.empty [(0,0),(1,0),(0,1)] 0 1 3
    (by decide) (by decide) (by decide)

theorem cleanRing_eq_self_of_ne {coords : List Pt}
    (h : ¬ coords.head? = coords.getLast?) : cleanRing coords = coords := by
  unfold cleanRing
  rw [if_neg]
  intro hc
  exact h hc.2

/-- C6: oversized (or undersized) rings are silent no-ops: the simple
prism builder leaves the mesh unchanged when the cleaned ring has more
than 500 points; the triangulated builder leaves it unchanged when the
raw ring has fewer than 3 or more than 1000 points; and the triangulator
returns the empty triangle list in the same situation. -/
theorem oversized_rings_rejected :
    (∀ (m : Mesh) (coords : List Pt) (z0 z1 : ℚ),
        500 < (cleanRing coords).length → addPrismFromPolygon m coords z0 z1 = m) ∧
    (∀ (m : Mesh) (coords : List Pt) (z0 z1 : ℚ),
        coords.length < 3 ∨ 1000 < coords.length →
          addPrismFromPolygonTriangulated m coords z0 z1 = m) ∧
    (∀ coords : List Pt,
        coords.length < 3 ∨ 1000 < coords.length → triangulatePolygon coords = []) := by
  refine ⟨?_, ?_, ?_⟩
  · intro m coords z0 z1 h
    have hraw : ¬ coords.length < 3 := by
      have := cleanRing_length_le coords
      omega
    unfold addPrismFromPolygon
    rw [if_neg hraw, if_pos h]
  · intro m coords z0 z1 h
    unfold addPrismFromPolygonTriangulated
    rw [if_pos h]
  · intro coords h
    unfold triangulatePolygon
    rw [if_pos h]

/-- C6 witness: a 501-point open ring is a no-op for the simple builder;
a 2-point list is a no-op for the triangulated builder and yields no
triangles. -/
theorem oversized_rings_rejected_witness :
    addPrismFromPolygon Mesh.empty ((List.range 501).map (fun (i : ℕ) => (((i : ℚ), 0) : Pt))) 0 1 =
      Mesh.empty ∧
    addPrismFromPolygonTriangulated Mesh.empty [(0,0),(1,1)] 0 1 = Mesh.empty ∧
    triangulatePolygon [(0,0),(1,1)] = [] :=
  ⟨oversized_rings_rejected.1 Mesh.empty _ 0 1
      (by set_option maxRecDepth 40000 in decide),
   oversized_rings_rejected.2.1 Mesh.empty _ 0 1 (by decide),
   oversized_rings_rejected.2.2 _ (by decide)⟩

/-- A closed ring with 1001 raw points: 1000 distinct points plus a
duplicated closing point, so its cleaned point count is 1000. -/
def ring1001 : List Pt :=
  ((0, 0) : Pt) :: ((List.range 999).map (fun (i : ℕ) => (((i : ℚ) + 1, 0) : Pt)) ++ [((0, 0) : Pt)])

theorem ring1001_clean :
    cleanRing ring1001 = ((0, 0) : Pt) :: (List.range 999).map (fun (i : ℕ) => (((i : ℚ) + 1, 0) : Pt)) := by
  unfold cleanRing
  rw [if_pos]
  · show ((((0, 0) : Pt) :: (List.range 999).map (fun (i : ℕ) => (((i : ℚ) + 1, 0) : Pt)))
        ++ [((0, 0) : Pt)]).dropLast = _
    exact List.dropLast_concat
  · refine ⟨by simp [ring1001], ?_⟩
    show some ((0, 0) : Pt) =
      ((((0, 0) : Pt) :: (List.range 999).map (fun (i : ℕ) => (((i : ℚ) + 1, 0) : Pt)))
        ++ [((0, 0) : Pt)]).getLast?
    rw [List.getLast?_concat]

/-- C3 counterexample: `ring1001` has cleaned point count 1000 (within
the claimed 3..1000 range), yet the triangulator returns the empty list
instead of 998 fan triangles, because the raw point count 1001 trips the
pre-cleanup guard. -/
theorem triangulatePolygon_claim_counterexample :
    3 ≤ (cleanRing ring1001).length ∧ (cleanRing ring1001).length ≤ 1000 ∧
    triangulatePolygon ring1001 = [] ∧
    (triangulatePolygon ring1001).length ≠ (cleanRing ring1001).length - 2 := by
  have hclean : (cleanRing ring1001).length = 1000 := by
    rw [ring1001_clean]; simp
  have hlen1001 : ring1001.length = 1001 := by
    unfold ring1001
    rw [List.length_cons, List.length_append, List.length_map, List.length_range,
      List.length_singleton]
  have htri : triangulatePolygon ring1001 = [] := by
    unfold triangulatePolygon
    rw [if_pos (Or.inr (by rw [hlen1001]; norm_num))]
  refine ⟨by omega, by omega, htri, by rw [htri, hclean]; decide⟩

/-- C3 amended: for rings whose raw point count is at most 1000 and whose
cleaned point count k is at least 3, the fan triangulator returns exactly
the k−2 triangles (0, i, i+1) for i = 1..k−2; it returns the empty list
whenever the raw count is below 3 or above 1000, or the cleaned count is
below 3. -/
theorem triangulatePolygon_spec (coords : List Pt) :
    (coords.length ≤ 1000 → 3 ≤ (cleanRing coords).length →
        triangulatePolygon coords =
          (List.range' 1 ((cleanRing coords).length - 2)).map (fun i => (0, i, i + 1)) ∧
        (triangulatePolygon coords).length = (cleanRing coords).length - 2) ∧
    (coords.length < 3 ∨ 1000 < coords.length ∨ (cleanRing coords).length < 3 →
        triangulatePolygon coords = []) := by
  constructor
  · intro hraw h3
    have hle := cleanRing_length_le coords
    have heq : triangulatePolygon coords =
        (List.range' 1 ((cleanRing coords).length - 2)).map (fun i => (0, i, i + 1)) := by
      unfold triangulatePolygon
      rw [if_neg (by omega), if_neg (by omega)]
    exact ⟨heq, by rw [heq]; simp⟩
  · intro h
    rcases h with h | h | h
    · exact oversized_rings_rejected.2.2 coords (Or.inl h)
    · exact oversized_rings_rejected.2.2 coords (Or.inr h)
    · by_cases hraw : coords.length < 3 ∨ coords.length > 1000
      · exact oversized_rings_rejected.2.2 coords hraw
      · unfold triangulatePolygon
        rw [if_neg hraw, if_pos (Or.inl h)]

/-- C3 amended witness: a concrete square with a closing point yields the
two fan triangles, and a 2-point input yields none. -/
theorem triangulatePolygon_spec_witness :
    triangulatePolygon [(0,0),(1,0),(1,1),(0,1),(0,0)] =
      (List.range' 1 ((cleanRing [(0,0),(1,0),(1,1),(0,1),(0,0)]).length - 2)).map
        (fun i => (0, i, i + 1)) ∧
    (triangulatePolygon [(0,0),(1,0),(1,1),(0,1),(0,0)]).length =
      (cleanRing [(0,0),(1,0),(1,1),(0,1),(0,0)]).length - 2 ∧
    triangulatePolygon [((0:ℚ),(0:ℚ)),(1,1)] = [] := by
  refine ⟨?_, ?_, ?_⟩
  · exact ((triangulatePolygon_spec _).1 (by decide) (by decide)).1
  · exact ((triangulatePolygon_spec _).1 (by decide) (by decide)).2
  · exact (triangulatePolygon_spec _).2 (Or.inl (by decide))

/-- C2 counterexample: two rings whose cleaned ring still starts and
ends at the same point violate the claimed counts.  The ring [A,B,A,A]
(raw 4, cleaned k = 3, in the claimed range) is a silent no-op: the
triangulator's own second cleanup leaves only 2 points and the builder
bails out before pushing any vertices.  The ring [A,B,C,A,A] (raw 5,
cleaned k = 4) appends its 8 vertices but only 2(k−3) + 2k = 10 faces
instead of the claimed 2(k−2) + 2k = 12, because the triangulator drops
the repeated point again and fans a (k−1)-gon. -/
theorem addPrismFromPolygonTriangulated_claim_counterexample :
    ([((0:ℚ),(0:ℚ)),(1,0),(0,0),(0,0)] : List Pt).length ≤ 1000 ∧
    (cleanRing [((0:ℚ),(0:ℚ)),(1,0),(0,0),(0,0)]).length = 3 ∧
    addPrismFromPolygonTriangulated Mesh.empty [((0:ℚ),(0:ℚ)),(1,0),(0,0),(0,0)] 0 1 =
      Mesh.empty ∧
    (addPrismFromPolygonTriangulated Mesh.empty
        [((0:ℚ),(0:ℚ)),(1,0),(0,0),(0,0)] 0 1).vertices.length ≠
      Mesh.empty.vertices.length + 2 * 3 ∧
    ([((0:ℚ),(0:ℚ)),(1,0),(2,0),(0,0),(0,0)] : List Pt).length ≤ 1000 ∧
    (cleanRing [((0:ℚ),(0:ℚ)),(1,0),(2,0),(0,0),(0,0)]).length = 4 ∧
    (addPrismFromPolygonTriangulated Mesh.empty
        [((0:ℚ),(0:ℚ)),(1,0),(2,0),(0,0),(0,0)] 0 1).vertices.length =
      Mesh.empty.vertices.length + 2 * 4 ∧
    (addPrismFromPolygonTriangulated Mesh.empty
        [((0:ℚ),(0:ℚ)),(1,0),(2,0),(0,0),(0,0)] 0 1).faces.length = 10 ∧
    (addPrismFromPolygonTriangulated Mesh.empty
        [((0:ℚ),(0:ℚ)),(1,0),(2,0),(0,0),(0,0)] 0 1).faces.length ≠
      Mesh.empty.faces.length + (2 * (4 - 2) + 2 * 4) := by
  decide

/-- C2 amended: for a ring whose cleaned point count k satisfies
3 ≤ k ≤ 1000, whose raw point count is at most 1000, and whose cleaned
ring does not still end at its first point, the triangulated prism
builder appends k bottom vertices then k top vertices as two contiguous
blocks and exactly 2(k−2) cap faces plus 2k side faces. -/
theorem addPrismFromPolygonTriangulated_counts
    (m : Mesh) (coords : List Pt) (z0 z1 : ℚ) (k : ℕ)
    (hk : (cleanRing coords).length = k) (h3 : 3 ≤ k) (h1000 : k ≤ 1000)
    (hraw : coords.length ≤ 1000)
    (hopen : ¬ (cleanRing coords).head? = (cleanRing coords).getLast?) :
    (addPrismFromPolygonTriangulated m coords z0 z1).vertices =
      m.vertices ++ (cleanRing coords).map (fun p => (p.1, p.2, z0))
        ++ (cleanRing coords).map (fun p => (p.1, p.2, z1)) ∧
    (addPrismFromPolygonTriangulated m coords z0 z1).vertices.length =
      m.vertices.length + 2 * k ∧
    (addPrismFromPolygonTriangulated m coords z0 z1).faces.length =
      m.faces.length + (2 * (k - 2) + 2 * k) := by
  have hself := @cleanRing_eq_self_of_ne (cleanRing coords) hopen
  have hle := cleanRing_length_le coords
  have hraw3 : ¬ (coords.length < 3 ∨ coords.length > 1000) := by omega
  have hk3 : ¬ ((cleanRing coords).length < 3 ∨ (cleanRing coords).length > 1000) := by
    omega
  have key : triangulatePolygon (cleanRing coords) =
      (List.range' 1 ((cleanRing coords).length - 2)).map (fun i => (0, i, i + 1)) := by
    unfold triangulatePolygon
    rw [hself, if_neg hk3, if_neg hk3]
  unfold addPrismFromPolygonTriangulated
  rw [if_neg hraw3, if_neg hk3, key,
    if_neg (by simp [hk]; omega :
      ¬ ((List.range' 1 ((cleanRing coords).length - 2)).map (fun i => (0, i, i + 1))).length = 0)]
  refine ⟨rfl, ?_, ?_⟩
  · simp [hk]; omega
  · simp only [List.length_append]
    rw [length_flatMap_pair, length_flatMap_pair]
    simp [hk]
    omega

/-- C2 amended witness: a concrete closed unit square appends its 4
bottom then 4 top vertices and 2·2 + 2·4 faces. -/
theorem addPrismFromPolygonTriangulated_counts_witness :
    (addPrismFromPolygonTriangulated Mesh.empty
        [(0,0),(1,0),(1,1),(0,1),(0,0)] 0 1).vertices =
      Mesh.empty.vertices
        ++ (cleanRing [(0,0),(1,0),(1,1),(0,1),(0,0)]).map (fun p => (p.1, p.2, 0))
        ++ (cleanRing [(0,0),(1,0),(1,1),(0,1),(0,0)]).map (fun p => (p.1, p.2, 1)) ∧
    (addPrismFromPolygonTriangulated Mesh.empty
        [(0,0),(1,0),(1,1),(0,1),(0,0)] 0 1).vertices.length =
      Mesh.empty.vertices.length + 2 * 4 ∧
    (addPrismFromPolygonTriangulated Mesh.empty
        [(0,0),(1,0),(1,1),(0,1),(0,0)] 0 1).faces.length =
      Mesh.empty.faces.length + (2 * (4 - 2) + 2 * 4) :=
  addPrismFromPolygonTriangulated_counts Mesh.empty
    [(0,0),(1,0),(1,1),(0,1),(0,0)] 0 1 4
    (by decide) (by decide) (by decide) (by decide) (by decide)

/-- The face-index invariant: every face has exactly 3 indices, each
below the vertex count. -/
def Mesh.WF (m : Mesh) : Prop :=
  ∀ f ∈ m.faces, f.length = 3 ∧ ∀ i ∈ f, i < m.vertices.length

theorem mem_triangulatePolygon {coords : List Pt} {tri : ℕ × ℕ × ℕ}
    (h : tri ∈ triangulatePolygon coords) :
    tri.1 = 0 ∧ 1 ≤ tri.2.1 ∧ tri.2.2 = tri.2.1 + 1 ∧
      tri.2.1 + 1 < (cleanRing coords).length := by
  unfold triangulatePolygon at h
  by_cases h1 : coords.length < 3 ∨ coords.length > 1000
  · rw [if_pos h1] at h; cases h
  · rw [if_neg h1] at h
    by_cases h2 : (cleanRing coords).length < 3 ∨ (cleanRing coords).length > 1000
    · rw [if_pos h2] at h; cases h
    · rw [if_neg h2] at h
      obtain ⟨i, hi, rfl⟩ := List.mem_map.mp h
      rw [List.mem_range'_1] at hi
      refine ⟨rfl, hi.1, rfl, ?_⟩
      show i + 1 < (cleanRing coords).length
      omega

theorem addPrismFromPolygon_WF (m : Mesh) (hm : m.WF)
    (coords : List Pt) (z0 z1 : ℚ) : (addPrismFromPolygon m coords z0 z1).WF := by
  unfold addPrismFromPolygon
  by_cases h1 : coords.length < 3
  · rw [if_pos h1]; exact hm
  · rw [if_neg h1]
    by_cases h2 : (cleanRing coords).length > 500
    · rw [if_pos h2]; exact hm
    · rw [if_neg h2]
      have hn2 : 2 ≤ (cleanRing coords).length := by
        have := cleanRing_length_ge coords
        omega
      intro f hf
      have hvlen :
          (m.vertices ++ (cleanRing coords).flatMap
            (fun p => [(p.1, p.2, z0), (p.1, p.2, z1)])).length =
          m.vertices.length + 2 * (cleanRing coords).length := by
        rw [List.length_append, length_flatMap_pair]
      rcases List.mem_append.mp hf with hf' | hf'
      · rcases List.mem_append.mp hf' with hold | hside
        · obtain ⟨hl, hb⟩ := hm f hold
          exact ⟨hl, fun i hi => by
            have := hb i hi
            simp only [hvlen]
            omega⟩
        · obtain ⟨i, hi, hmem⟩ := List.mem_flatMap.mp hside
          have hilt : i < (cleanRing coords).length := List.mem_range.mp hi
          have hnext : (i + 1) % (cleanRing coords).length < (cleanRing coords).length :=
            Nat.mod_lt _ (by omega)
          simp only [List.mem_cons, List.not_mem_nil, or_false] at hmem
          rcases hmem with rfl | rfl
          · refine ⟨rfl, fun j hj => ?_⟩
            simp only [List.mem_cons, List.not_mem_nil, or_false] at hj
            simp only [hvlen]
            rcases hj with rfl | rfl | rfl <;> omega
          · refine ⟨rfl, fun j hj => ?_⟩
            simp only [List.mem_cons, List.not_mem_nil, or_false] at hj
            simp only [hvlen]
            rcases hj with rfl | rfl | rfl <;> omega
      · obtain ⟨i, hi, hmem⟩ := List.mem_flatMap.mp hf'
        rw [List.mem_range'_1] at hi
        simp only [List.mem_cons, List.not_mem_nil, or_false] at hmem
        rcases hmem with rfl | rfl
        · refine ⟨rfl, fun j hj => ?_⟩
          simp only [List.mem_cons, List.not_mem_nil, or_false] at hj
          simp only [hvlen]
          rcases hj with rfl | rfl | rfl <;> omega
        · refine ⟨rfl, fun j hj => ?_⟩
          simp only [List.mem_cons, List.not_mem_nil, or_false] at hj
          simp only [hvlen]
          rcases hj with rfl | rfl | rfl <;> omega

theorem addPrismFromPolygonTriangulated_WF (m : Mesh) (hm : m.WF)
    (coords : List Pt) (z0 z1 : ℚ) :
    (addPrismFromPolygonTriangulated m coords z0 z1).WF := by
  unfold addPrismFromPolygonTriangulated
  by_cases h1 : coords.length < 3 ∨ coords.length > 1000
  · rw [if_pos h1]; exact hm
  · rw [if_neg h1]
    by_cases h2 : (cleanRing coords).length < 3 ∨ (cleanRing coords).length > 1000
    · rw [if_pos h2]; exact hm
    · rw [if_neg h2]
      by_cases h3 : (triangulatePolygon (cleanRing coords)).length = 0
      · rw [if_pos h3]; exact hm
      · rw [if_neg h3]
        have hn3 : 3 ≤ (cleanRing coords).length := by omega
        intro f hf
        have hvlen :
            (m.vertices ++ (cleanRing coords).map (fun p => (p.1, p.2, z0))
              ++ (cleanRing coords).map (fun p => (p.1, p.2, z1))).length =
            m.vertices.length + 2 * (cleanRing coords).length := by
          simp only [List.length_append, List.length_map]
          omega
        rcases List.mem_append.mp hf with hf' | hf'
        · rcases List.mem_append.mp hf' with hold | hcap
          · obtain ⟨hl, hb⟩ := hm f hold
            exact ⟨hl, fun i hi => by
              have := hb i hi
              simp only [hvlen]
              omega⟩
          · obtain ⟨tri, htri, hmem⟩ := List.mem_flatMap.mp hcap
            obtain ⟨ht0, ht1, ht2, htlt⟩ := mem_triangulatePolygon htri
            have hclean2 := cleanRing_length_le (cleanRing coords)
            simp only [List.mem_cons, List.not_mem_nil, or_false] at hmem
            rcases hmem with rfl | rfl
            · refine ⟨rfl, fun j hj => ?_⟩
              simp only [List.mem_cons, List.not_mem_nil, or_false] at hj
              simp only [hvlen]
              rcases hj with rfl | rfl | rfl <;> omega
            · refine ⟨rfl, fun j hj => ?_⟩
              simp only [List.mem_cons, List.not_mem_nil, or_false] at hj
              simp only [hvlen]
              rcases hj with rfl | rfl | rfl <;> omega
        · obtain ⟨i, hi, hmem⟩ := List.mem_flatMap.mp hf'
          have hilt : i < (cleanRing coords).length := List.mem_range.mp hi
          have hnext : (i + 1) % (cleanRing coords).length < (cleanRing coords).length :=
            Nat.mod_lt _ (by omega)
          simp only [List.mem_cons, List.not_mem_nil, or_false] at hmem
          rcases hmem with rfl | rfl
          · refine ⟨rfl, fun j hj => ?_⟩
            simp only [List.mem_cons, List.not_mem_nil, or_false] at hj
            simp only [hvlen]
            rcases hj with rfl | rfl | rfl <;> omega
          · refine ⟨rfl, fun j hj => ?_⟩
            simp only [List.mem_cons, List.not_mem_nil, or_false] at hj
            simp only [hvlen]
            rcases hj with rfl | rfl | rfl <;> omega

/-- C10: every arena operation preserves the face-index invariant:
starting from a mesh whose faces all have 3 in-bounds indices, the base
builder's result and the two prism builders' results on any input again
have only 3-index faces with every index below the vertex count. -/
theorem mesh_ops_preserve_WF (m : Mesh) (hm : m.WF)
    (baseSize baseThickness : ℚ) (coords : List Pt) (z0 z1 : ℚ) :
    (createSolidBase baseSize baseThickness).WF ∧
    (addPrismFromPolygon m coords z0 z1).WF ∧
    (addPrismFromPolygonTriangulated m coords z0 z1).WF := by
  refine ⟨?_, addPrismFromPolygon_WF m hm coords z0 z1,
    addPrismFromPolygonTriangulated_WF m hm coords z0 z1⟩
  intro f hf
  have hv : (createSolidBase baseSize baseThickness).vertices.length = 8 := rfl
  have hfc : (createSolidBase baseSize baseThickness).faces =
      [ [0, 1, 5], [0, 5, 4], [1, 2, 6], [1, 6, 5], [2, 3, 7], [2, 7, 6],
        [3, 0, 4], [3, 4, 7], [4, 5, 6], [4, 6, 7], [0, 1, 2], [0, 2, 3] ] := rfl
  rw [hfc] at hf
  rw [hv]
  fin_cases hf <;> exact ⟨rfl, by decide⟩

/-- C10 witness: the invariant holds concretely through a base plate and
both prism builders starting from the empty arena. -/
theorem mesh_ops_preserve_WF_witness :
    Mesh.empty.WF ∧
    ((createSolidBase 10 1).WF ∧
      (addPrismFromPolygon Mesh.empty [(0,0),(1,0),(0,1)] 0 1).WF ∧
      (addPrismFromPolygonTriangulated Mesh.empty [(0,0),(1,0),(0,1)] 0 1).WF) :=
  ⟨(by intro f hf; cases hf),
   mesh_ops_preserve_WF Mesh.empty (by intro f hf; cases hf) 10 1 [(0,0),(1,0),(0,1)] 0 1⟩

/-- An OSM tag value: a literal number or a raw string. -/
inductive TagVal
  | num (q : ℚ)
  | str (s : List Char)
deriving DecidableEq

def digitsToNat (ds : List Char) : ℕ :=
  ds.foldl (fun a c => 10 * a + (c.toNat - 48)) 0

/-- 10^n as a natural number (the scale of a fraction-digit block). -/
def pow10 : ℕ → ℕ
  | 0 => 1
  | n + 1 => 10 * pow10 n

/-- The first match of the regex `(\d+\.?\d*)` in a string, parsed as a
number: scan to the first digit, take the maximal run of digits, an
optional dot, and a maximal run of fraction digits. -/
def parseDecimalToken : List Char → Option ℚ
  | [] => none
  | c :: rest =>
    if c.isDigit then
      let intDigits := (c :: rest).takeWhile Char.isDigit
      let after := (c :: rest).dropWhile Char.isDigit
      let fracDigits :=
        match after with
        | '.' :: r => r.takeWhile Char.isDigit
        | _ => []
      some ((digitsToNat intDigits : ℚ) +
        (digitsToNat fracDigits : ℚ) / (pow10 fracDigits.length : ℚ))
    else parseDecimalToken rest

/-- The attribute loop of `getBuildingHeight`: try each attribute in
order; a present numeric value is returned (×3 for `building:levels`),
a present string value is returned when it contains a decimal token,
and anything else falls through to the next attribute. -/
def lookupHeight (tags : List (String × TagVal)) (d : ℚ) : List String → ℚ
  | [] => d
  | attr :: rest =>
    match tags.lookup attr with
    | none => lookupHeight tags d rest
    | some (TagVal.num q) => if attr = "building:levels" then q * 3 else q
    | some (TagVal.str s) =>
      match parseDecimalToken s with
      | some q => q
      | none => lookupHeight tags d rest

/-- `getBuildingHeight(feature, defaultHeight)` over the feature's tags. -/
def getBuildingHeight (tags : List (String × TagVal)) (d : ℚ) : ℚ :=
  lookupHeight tags d ["height", "building:height", "building:levels"]

/-- The leading decimal token of a string, per the claim's reading: the
string must be *prefixed* by a decimal number. -/
def parseLeadingDecimal (s : List Char) : Option ℚ :=
  match s with
  | [] => none
  | c :: _ =>
    if c.isDigit then parseDecimalToken s else none

/-- The height fallback exactly as the claim words it: `height`, else
`building:height`, else `building:levels` × 3, else the default; string
values parse only a *leading* decimal token, and strings with no
matching token fall through to the default. -/
def claimedHeightSpec (tags : List (String × TagVal)) (d : ℚ) : ℚ :=
  match tags.lookup "height" with
  | some (TagVal.num q) => q
  | some (TagVal.str s) => (parseLeadingDecimal s).getD d
  | none =>
    match tags.lookup "building:height" with
    | some (TagVal.num q) => q
    | some (TagVal.str s) => (parseLeadingDecimal s).getD d
    | none =>
      match tags.lookup "building:levels" with
      | some (TagVal.num q) => q * 3
      | some (TagVal.str s) => ((parseLeadingDecimal s).map (· * 3)).getD d
      | none => d

/-- C4 counterexample: the code disagrees with the claimed fallback in
two concrete ways: a string-valued `building:levels` of "2" yields 2
(no ×3), not 6; and an unparseable `height` string falls through to the
`building:height` attribute (7), not to the default (10). -/
theorem getBuildingHeight_claim_counterexample :
    getBuildingHeight [("building:levels", TagVal.str ['2'])] 10 = 2 ∧
    claimedHeightSpec [("building:levels", TagVal.str ['2'])] 10 = 6 ∧
    getBuildingHeight [("height", TagVal.str ['x']), ("building:height", TagVal.num 7)] 10 = 7 ∧
    claimedHeightSpec [("height", TagVal.str ['x']), ("building:height", TagVal.num 7)] 10 = 10 := by
  refine ⟨?_, ?_, ?_, ?_⟩ <;>
    simp [getBuildingHeight, lookupHeight, claimedHeightSpec, parseLeadingDecimal,
      parseDecimalToken, digitsToNat, pow10, List.lookup, List.takeWhile,
      List.dropWhile] <;>
    norm_num

/-- The height fallback as the code actually behaves: each of `height`,
`building:height`, `building:levels` is tried in order; a numeric value
is returned directly (×3 only for numeric `building:levels`); a string
value is returned as its first decimal token *anywhere* in the string,
without the ×3; a missing tag or token-free string falls through to the
next attribute, and only then to the default. -/
def amendedHeightSpec (tags : List (String × TagVal)) (d : ℚ) : ℚ :=
  match tags.lookup "height" with
  | some (TagVal.num q) => q
  | some (TagVal.str s) =>
    match parseDecimalToken s with
    | some q => q
    | none => amendedHeightTail tags d
  | none => amendedHeightTail tags d
where
  amendedHeightTail (tags : List (String × TagVal)) (d : ℚ) : ℚ :=
    match tags.lookup "building:height" with
    | some (TagVal.num q) => q
    | some (TagVal.str s) =>
      match parseDecimalToken s with
      | some q => q
      | none => amendedHeightLast tags d
    | none => amendedHeightLast tags d
  amendedHeightLast (tags : List (String × TagVal)) (d : ℚ) : ℚ :=
    match tags.lookup "building:levels" with
    | some (TagVal.num q) => q * 3
    | some (TagVal.str s) =>
      match parseDecimalToken s with
      | some q => q
      | none => d
    | none => d

/-- C4 amended: `getBuildingHeight` implements exactly the amended
ordered fallback `amendedHeightSpec`. -/
theorem getBuildingHeight_spec (tags : List (String × TagVal)) (d : ℚ) :
    getBuildingHeight tags d = amendedHeightSpec tags d := by
  unfold getBuildingHeight amendedHeightSpec
  cases h1 : tags.lookup "height" with
  | none =>
    unfold amendedHeightSpec.amendedHeightTail
    cases h2 : tags.lookup "building:height" with
    | none =>
      unfold amendedHeightSpec.amendedHeightLast
      cases h3 : tags.lookup "building:levels" with
      | none => simp [lookupHeight, h1, h2, h3]
      | some v =>
        cases v with
        | num q => simp [lookupHeight, h1, h2, h3]
        | str s =>
          cases hp : parseDecimalToken s <;> simp [lookupHeight, h1, h2, h3, hp]
    | some v =>
      cases v with
      | num q => simp [lookupHeight, h1, h2]
      | str s =>
        cases hp : parseDecimalToken s with
        | none =>
          unfold amendedHeightSpec.amendedHeightLast
          cases h3 : tags.lookup "building:levels" with
          | none => simp [lookupHeight, h1, h2, h3, hp]
          | some v =>
            cases v with
            | num q => simp [lookupHeight, h1, h2, h3, hp]
            | str s2 =>
              cases hp2 : parseDecimalToken s2 <;>
                simp [lookupHeight, h1, h2, h3, hp, hp2]
        | some q => simp [lookupHeight, h1, h2, hp]
  | some v =>
    cases v with
    | num q => simp [lookupHeight, h1]
    | str s =>
      cases hp : parseDecimalToken s with
      | none =>
        unfold amendedHeightSpec.amendedHeightTail
        cases h2 : tags.lookup "building:height" with
        | none =>
          unfold amendedHeightSpec.amendedHeightLast
          cases h3 : tags.lookup "building:levels" with
          | none => simp [lookupHeight, h1, h2, h3, hp]
          | some v =>
            cases v with
            | num q => simp [lookupHeight, h1, h2, h3, hp]
            | str s2 =>
              cases hp2 : parseDecimalToken s2 <;>
                simp [lookupHeight, h1, h2, h3, hp, hp2]
        | some v =>
          cases v with
          | num q => simp [lookupHeight, h1, h2, hp]
          | str s2 =>
            cases hp2 : parseDecimalToken s2 with
            | none =>
              unfold amendedHeightSpec.amendedHeightLast
              cases h3 : tags.lookup "building:levels" with
              | none => simp [lookupHeight, h1, h2, h3, hp, hp2]
              | some v =>
                cases v with
                | num q => simp [lookupHeight, h1, h2, h3, hp, hp2]
                | str s3 =>
                  cases hp3 : parseDecimalToken s3 <;>
                    simp [lookupHeight, h1, h2, h3, hp, hp2, hp3]
            | some q => simp [lookupHeight, h1, h2, hp, hp2]
      | some q => simp [lookupHeight, h1, hp]

/-- The config fields used by the building layer. -/
structure ModelConfig where
  targetSize : ℚ
  maxHeight : ℚ
  defaultHeight : ℚ
  baseThickness : ℚ
deriving DecidableEq

/-- A normalized input feature (polygon variant carries its rings, the
exterior ring first). -/
structure Feature where
  isPolygon : Bool
  rings : List (List Pt)
  tags : List (String × TagVal)
deriving DecidableEq

/-- The projection `toModelXY` of `processLayer`: bbox is
(north, east, south, west). -/
def toModelXY (bbox : ℚ × ℚ × ℚ × ℚ) (targetSize : ℚ) (p : Pt) : Pt :=
  let north := bbox.1
  let east := bbox.2.1
  let south := bbox.2.2.1
  let west := bbox.2.2.2
  let baseSize := targetSize * 1.2
  let scaleX := targetSize / (east - west)
  let scaleY := targetSize / (north - south)
  let centerOffsetX := (baseSize - scaleX * (east - west)) / 2
  let centerOffsetY := (baseSize - scaleY * (north - south)) / 2
  ((p.1 - west) * scaleX + centerOffsetX, (p.2 - south) * scaleY + centerOffsetY)

/-- Auto-closing of a projected ring: append the first point when the
ring does not already end with it. -/
def closeRing (r : List Pt) : List Pt :=
  if r.head? = r.getLast? then r else r ++ r.head?.toList

/-- The max-raw-height pass over the whole feature set (fold starting
at 0, as in the source). -/
def maxBuildingHeight (features : List Feature) (d : ℚ) : ℚ :=
  features.foldl (fun acc f => max acc (getBuildingHeight f.tags d)) 0

/-- The height scale factor: maxHeight / maxRawHeight, or 1.0 when the
computed maximum is not positive. -/
def heightScale (features : List Feature) (cfg : ModelConfig) : ℚ :=
  if maxBuildingHeight features cfg.defaultHeight > 0 then
    cfg.maxHeight / maxBuildingHeight features cfg.defaultHeight
  else 1

/-- The buildings branch of `processLayer`: for each polygon feature
whose exterior ring has at most 500 raw points, project, auto-close, and
extrude from baseThickness to baseThickness + rawHeight × scale.  The
result lists each prism's (ring, z0, z1) triple in feature order. -/
def buildingPrisms (features : List Feature) (bbox : ℚ × ℚ × ℚ × ℚ)
    (cfg : ModelConfig) : List (List Pt × ℚ × ℚ) :=
  let scale := heightScale features cfg
  features.filterMap (fun f =>
    if f.isPolygon then
      match f.rings.head? with
      | none => none
      | some exterior =>
        if exterior.length > 500 then none
        else
          let modelCoords := closeRing (exterior.map (toModelXY bbox cfg.targetSize))
          let height := getBuildingHeight f.tags cfg.defaultHeight * scale
          some (modelCoords, cfg.baseThickness, cfg.baseThickness + height)
    else none)

theorem init_le_foldl_max {α : Type _} (l : List α) (g : α → ℚ) (a : ℚ) :
    a ≤ l.foldl (fun acc x => max acc (g x)) a := by
  induction l generalizing a with
  | nil => simp
  | cons y t ih =>
    simp only [List.foldl_cons]
    exact le_trans (le_max_left a (g y)) (ih (max a (g y)))

theorem foldl_max_le {α : Type _} (l : List α) (g : α → ℚ) (a b : ℚ)
    (ha : a ≤ b) (hl : ∀ x ∈ l, g x ≤ b) :
    l.foldl (fun acc x => max acc (g x)) a ≤ b := by
  induction l generalizing a with
  | nil => simpa using ha
  | cons y t ih =>
    simp only [List.foldl_cons]
    exact ih (max a (g y)) (max_le ha (hl y (by simp)))
      (fun x hx => hl x (by simp [hx]))

theorem le_foldl_max {α : Type _} (l : List α) (g : α → ℚ) (a : ℚ) {x : α}
    (hx : x ∈ l) :
    g x ≤ l.foldl (fun acc x => max acc (g x)) a := by
  induction l generalizing a with
  | nil => cases hx
  | cons y t ih =>
    simp only [List.foldl_cons]
    rcases List.mem_cons.mp hx with rfl | hx'
    · exact le_trans (le_max_right a (g x)) (init_le_foldl_max t g _)
    · exact ih (max a (g y)) hx'


/-- C5: the building layer computes the maximum raw height over the
whole set, scales by maxHeight / maxRawHeight, extrudes every produced
prism from z0 = baseThickness to z1 = baseThickness + raw × scale, and
the feature of maximal raw height (when positive) reaches top z exactly
baseThickness + maxHeight. -/
theorem buildings_height_scaling
    (features : List Feature) (bbox : ℚ × ℚ × ℚ × ℚ) (cfg : ModelConfig)
    (fmax : Feature) (hmem : fmax ∈ features)
    (hmax : ∀ f ∈ features, getBuildingHeight f.tags cfg.defaultHeight ≤
        getBuildingHeight fmax.tags cfg.defaultHeight)
    (hpos : 0 < getBuildingHeight fmax.tags cfg.defaultHeight) :
    maxBuildingHeight features cfg.defaultHeight =
      getBuildingHeight fmax.tags cfg.defaultHeight ∧
    heightScale features cfg =
      cfg.maxHeight / getBuildingHeight fmax.tags cfg.defaultHeight ∧
    (∀ pr ∈ buildingPrisms features bbox cfg,
        pr.2.1 = cfg.baseThickness ∧
        ∃ f ∈ features,
          pr.2.2 = cfg.baseThickness +
            getBuildingHeight f.tags cfg.defaultHeight * heightScale features cfg) ∧
    cfg.baseThickness +
        getBuildingHeight fmax.tags cfg.defaultHeight * heightScale features cfg =
      cfg.baseThickness + cfg.maxHeight := by
  have hmaxeq : maxBuildingHeight features cfg.defaultHeight =
      getBuildingHeight fmax.tags cfg.defaultHeight := by
    refine le_antisymm ?_ ?_
    · exact foldl_max_le features _ 0 _ hpos.le hmax
    · exact le_foldl_max features _ 0 hmem
  have hscale : heightScale features cfg =
      cfg.maxHeight / getBuildingHeight fmax.tags cfg.defaultHeight := by
    unfold heightScale
    rw [hmaxeq, if_pos hpos]
  refine ⟨hmaxeq, hscale, ?_, ?_⟩
  · intro pr hpr
    obtain ⟨f, hf, heq⟩ := List.mem_filterMap.mp hpr
    by_cases hp : f.isPolygon
    · rw [if_pos hp] at heq
      cases hext : f.rings.head? with
      | none => simp [hext] at heq
      | some exterior =>
        simp only [hext] at heq
        by_cases hlen : exterior.length > 500
        · simp [hlen] at heq
        · rw [if_neg hlen] at heq
          obtain rfl := Option.some.inj heq
          exact ⟨rfl, f, hf, rfl⟩
    · rw [if_neg hp] at heq; exact Option.noConfusion heq
  · rw [hscale]
    have hne : getBuildingHeight fmax.tags cfg.defaultHeight ≠ 0 := ne_of_gt hpos
    field_simp

/-- C5 witness: raw heights {10, 20, 40} with maxHeight = 20 give scale
1/2, per-prism z1 = baseThickness + raw/2, and top z of the tallest
building exactly baseThickness + 20. -/
theorem buildings_height_scaling_witness :
    maxBuildingHeight
        [ ⟨true, [[(0,0),(1,0),(0,1)]], [("height", TagVal.num 10)]⟩,
          ⟨true, [[(0,0),(1,0),(0,1)]], [("height", TagVal.num 20)]⟩,
          ⟨true, [[(0,0),(1,0),(0,1)]], [("height", TagVal.num 40)]⟩ ] 40 =
      getBuildingHeight [("height", TagVal.num 40)] 40 ∧
    heightScale
        [ ⟨true, [[(0,0),(1,0),(0,1)]], [("height", TagVal.num 10)]⟩,
          ⟨true, [[(0,0),(1,0),(0,1)]], [("height", TagVal.num 20)]⟩,
          ⟨true, [[(0,0),(1,0),(0,1)]], [("height", TagVal.num 40)]⟩ ] ⟨180, 20, 40, 9/5⟩ =
      20 / getBuildingHeight [("height", TagVal.num 40)] 40 ∧
    (∀ pr ∈ buildingPrisms
        [ ⟨true, [[(0,0),(1,0),(0,1)]], [("height", TagVal.num 10)]⟩,
          ⟨true, [[(0,0),(1,0),(0,1)]], [("height", TagVal.num 20)]⟩,
          ⟨true, [[(0,0),(1,0),(0,1)]], [("height", TagVal.num 40)]⟩ ]
        (1, 1, 0, 0) ⟨180, 20, 40, 9/5⟩,
        pr.2.1 = (9/5 : ℚ) ∧
        ∃ f ∈ [ ⟨true, [[(0,0),(1,0),(0,1)]], [("height", TagVal.num 10)]⟩,
          (⟨true, [[(0,0),(1,0),(0,1)]], [("height", TagVal.num 20)]⟩ : Feature),
          ⟨true, [[(0,0),(1,0),(0,1)]], [("height", TagVal.num 40)]⟩ ],
          pr.2.2 = 9/5 +
            getBuildingHeight f.tags 40 * heightScale
              [ ⟨true, [[(0,0),(1,0),(0,1)]], [("height", TagVal.num 10)]⟩,
                ⟨true, [[(0,0),(1,0),(0,1)]], [("height", TagVal.num 20)]⟩,
                ⟨true, [[(0,0),(1,0),(0,1)]], [("height", TagVal.num 40)]⟩ ]
              ⟨180, 20, 40, 9/5⟩) ∧
    (9/5 : ℚ) + getBuildingHeight [("height", TagVal.num 40)] 40 * heightScale
        [ ⟨true, [[(0,0),(1,0),(0,1)]], [("height", TagVal.num 10)]⟩,
          ⟨true, [[(0,0),(1,0),(0,1)]], [("height", TagVal.num 20)]⟩,
          ⟨true, [[(0,0),(1,0),(0,1)]], [("height", TagVal.num 40)]⟩ ] ⟨180, 20, 40, 9/5⟩ =
      9/5 + 20 :=
  buildings_height_scaling
    [ ⟨true, [[(0,0),(1,0),(0,1)]], [("height", TagVal.num 10)]⟩,
      ⟨true, [[(0,0),(1,0),(0,1)]], [("height", TagVal.num 20)]⟩,
      ⟨true, [[(0,0),(1,0),(0,1)]], [("height", TagVal.num 40)]⟩ ]
    (1, 1, 0, 0) ⟨180, 20, 40, 9/5⟩
    ⟨true, [[(0,0),(1,0),(0,1)]], [("height", TagVal.num 40)]⟩
    (by simp)
    (by intro f hf
        fin_cases hf <;> decide)
    (by decide)

/-- The zero-length guard epsilon (1e-10). -/
def epsQ : ℚ := 1 / 10000000000

def ptAdd (a b : Pt) : Pt := (a.1 + b.1, a.2 + b.2)

def ptSub (a b : Pt) : Pt := (a.1 - b.1, a.2 - b.2)

/-- Squared distance between two points. -/
def distSq (a b : Pt) : ℚ :=
  (a.1 - b.1) * (a.1 - b.1) + (a.2 - b.2) * (a.2 - b.2)

/-- Dot product of two 2-D vectors. -/
def dotQ (a b : Pt) : ℚ := a.1 * b.1 + a.2 * b.2

/-- The local tangent of `bufferLineString` at point i: the next segment
at the first point, the previous segment at the last, and the average of
the adjacent segments at interior points. -/
def tangentAt (coords : List Pt) (i : ℕ) : ℚ × ℚ :=
  if i = 0 then
    ((coords.getD 1 (0,0)).1 - (coords.getD 0 (0,0)).1,
     (coords.getD 1 (0,0)).2 - (coords.getD 0 (0,0)).2)
  else if i = coords.length - 1 then
    ((coords.getD i (0,0)).1 - (coords.getD (i-1) (0,0)).1,
     (coords.getD i (0,0)).2 - (coords.getD (i-1) (0,0)).2)
  else
    ((((coords.getD i (0,0)).1 - (coords.getD (i-1) (0,0)).1) +
      ((coords.getD (i+1) (0,0)).1 - (coords.getD i (0,0)).1)) / 2,
     (((coords.getD i (0,0)).2 - (coords.getD (i-1) (0,0)).2) +
      ((coords.getD (i+1) (0,0)).2 - (coords.getD i (0,0)).2)) / 2)

/-- Squared length of the tangent at point i. -/
def tLenSq (coords : List Pt) (i : ℕ) : ℚ :=
  (tangentAt coords i).1 * (tangentAt coords i).1 +
    (tangentAt coords i).2 * (tangentAt coords i).2

/-- The perpendicular offset (perpX, perpY) at point i: the tangent
rotated 90°, normalized by the oracle length, and scaled by width/2. -/
def perpAt (sqrtFn : ℚ → ℚ) (coords : List Pt) (i : ℕ) (width : ℚ) : Pt :=
  (-(tangentAt coords i).2 / sqrtFn (tLenSq coords i) * (width / 2),
   (tangentAt coords i).1 / sqrtFn (tLenSq coords i) * (width / 2))

/-- The synchronized left/right offset polylines: one (left, right) pair
per input point whose tangent length passes the epsilon guard. -/
def leftRightPairs (sqrtFn : ℚ → ℚ) (coords : List Pt) (width : ℚ) :
    List (Pt × Pt) :=
  (List.range coords.length).filterMap (fun i =>
    if sqrtFn (tLenSq coords i) < epsQ then none
    else
      some (ptAdd (coords.getD i (0,0)) (perpAt sqrtFn coords i width),
            ptSub (coords.getD i (0,0)) (perpAt sqrtFn coords i width)))

/-- `bufferLineString(coords, width)`: returns [] for fewer than 2
points; otherwise one quad (left[i], right[i], right[i+1], left[i+1])
per consecutive offset pair. -/
def bufferLineString (sqrtFn : ℚ → ℚ) (coords : List Pt) (width : ℚ) :
    List (List Pt) :=
  if coords.length < 2 then []
  else
    let lr := leftRightPairs sqrtFn coords width
    (List.range (lr.length - 1)).map (fun i =>
      [ (lr.getD i ((0,0),(0,0))).1, (lr.getD i ((0,0),(0,0))).2,
        (lr.getD (i+1) ((0,0),(0,0))).2, (lr.getD (i+1) ((0,0),(0,0))).1 ])

theorem length_filterMap_eq_countP {α β : Type _} (l : List α) (f : α → Option β) :
    (l.filterMap f).length = l.countP (fun a => (f a).isSome) := by
  induction l with
  | nil => rfl
  | cons a t ih =>
    cases hfa : f a <;>
      simp [List.filterMap_cons, hfa, List.countP_cons, ih]

/-- C7: buffering a 2-point segment whose tangent passes the epsilon
guard under an exact square root yields exactly one quad ordered
(left0, right0, right1, left1) whose corners sit at squared distance
(w/2)² from their endpoints, perpendicular to the segment; in general
the quad count is the number of epsilon-passing points minus one. -/
theorem bufferLineString_spec (sqrtFn : ℚ → ℚ) :
    (∀ (p q : Pt) (w : ℚ),
      sqrtFn (tLenSq [p, q] 0) * sqrtFn (tLenSq [p, q] 0) = tLenSq [p, q] 0 →
      epsQ ≤ sqrtFn (tLenSq [p, q] 0) →
      bufferLineString sqrtFn [p, q] w =
        [ [ ptAdd p (perpAt sqrtFn [p, q] 0 w), ptSub p (perpAt sqrtFn [p, q] 0 w),
            ptSub q (perpAt sqrtFn [p, q] 0 w), ptAdd q (perpAt sqrtFn [p, q] 0 w) ] ] ∧
      distSq (ptAdd p (perpAt sqrtFn [p, q] 0 w)) p = w * w / 4 ∧
      distSq (ptSub p (perpAt sqrtFn [p, q] 0 w)) p = w * w / 4 ∧
      distSq (ptSub q (perpAt sqrtFn [p, q] 0 w)) q = w * w / 4 ∧
      distSq (ptAdd q (perpAt sqrtFn [p, q] 0 w)) q = w * w / 4 ∧
      dotQ (perpAt sqrtFn [p, q] 0 w) (ptSub q p) = 0) ∧
    (∀ (coords : List Pt) (w : ℚ), 2 ≤ coords.length →
      (bufferLineString sqrtFn coords w).length =
        (leftRightPairs sqrtFn coords w).length - 1) ∧
    (∀ (coords : List Pt) (w : ℚ),
      (leftRightPairs sqrtFn coords w).length =
        (List.range coords.length).countP
          (fun i => decide (epsQ ≤ sqrtFn (tLenSq coords i)))) := by
  refine ⟨?_, ?_, ?_⟩
  · intro p q w h1 h2
    have heps : (0 : ℚ) < epsQ := by norm_num [epsQ]
    have hlen0 : sqrtFn (tLenSq [p, q] 0) ≠ 0 := by
      intro h
      rw [h] at h2
      linarith
    have hnl0 : ¬ sqrtFn (tLenSq [p, q] 0) < epsQ := not_lt.mpr h2
    have ht10 : tLenSq ([p, q] : List Pt) 1 = tLenSq [p, q] 0 := rfl
    have hnl1 : ¬ sqrtFn (tLenSq [p, q] 1) < epsQ := by rw [ht10]; exact hnl0
    have hp1 : perpAt sqrtFn ([p, q] : List Pt) 1 w = perpAt sqrtFn [p, q] 0 w := rfl
    have hlr : leftRightPairs sqrtFn [p, q] w =
        [ (ptAdd p (perpAt sqrtFn [p, q] 0 w), ptSub p (perpAt sqrtFn [p, q] 0 w)),
          (ptAdd q (perpAt sqrtFn [p, q] 0 w), ptSub q (perpAt sqrtFn [p, q] 0 w)) ] := by
      unfold leftRightPairs
      rw [show List.range ([p, q] : List Pt).length = [0, 1] from rfl]
      simp only [List.filterMap_cons, List.filterMap_nil]
      rw [if_neg hnl0, if_neg hnl1, hp1]
      rfl
    have hquad : bufferLineString sqrtFn [p, q] w =
        [ [ ptAdd p (perpAt sqrtFn [p, q] 0 w), ptSub p (perpAt sqrtFn [p, q] 0 w),
            ptSub q (perpAt sqrtFn [p, q] 0 w), ptAdd q (perpAt sqrtFn [p, q] 0 w) ] ] := by
      unfold bufferLineString
      rw [if_neg (by norm_num : ¬ ([p, q] : List Pt).length < 2), hlr]
      rfl
    have hvsq : (perpAt sqrtFn [p, q] 0 w).1 * (perpAt sqrtFn [p, q] 0 w).1 +
        (perpAt sqrtFn [p, q] 0 w).2 * (perpAt sqrtFn [p, q] 0 w).2 = w * w / 4 := by
      unfold perpAt
      have expand :
          -(tangentAt [p, q] 0).2 / sqrtFn (tLenSq [p, q] 0) * (w / 2) *
              (-(tangentAt [p, q] 0).2 / sqrtFn (tLenSq [p, q] 0) * (w / 2)) +
            (tangentAt [p, q] 0).1 / sqrtFn (tLenSq [p, q] 0) * (w / 2) *
              ((tangentAt [p, q] 0).1 / sqrtFn (tLenSq [p, q] 0) * (w / 2)) =
          tLenSq [p, q] 0 * (w * w) /
            (4 * (sqrtFn (tLenSq [p, q] 0) * sqrtFn (tLenSq [p, q] 0))) := by
        unfold tLenSq
        field_simp
        ring
      rw [expand, h1]
      have hd : tLenSq [p, q] 0 ≠ 0 := by
        intro h
        rw [h] at h1
        exact hlen0 (by rw [h]; exact mul_self_eq_zero.mp h1)
      field_simp
      ring
    refine ⟨hquad, ?_, ?_, ?_, ?_, ?_⟩
    · simp only [distSq, ptAdd]
      ring_nf
      ring_nf at hvsq
      linarith [hvsq]
    · simp only [distSq, ptSub]
      ring_nf
      ring_nf at hvsq
      linarith [hvsq]
    · simp only [distSq, ptSub]
      ring_nf
      ring_nf at hvsq
      linarith [hvsq]
    · simp only [distSq, ptAdd]
      ring_nf
      ring_nf at hvsq
      linarith [hvsq]
    · have ht : tangentAt ([p, q] : List Pt) 0 = (q.1 - p.1, q.2 - p.2) := rfl
      simp only [dotQ, perpAt, ptSub, ht]
      ring
  · intro coords w h2
    unfold bufferLineString
    rw [if_neg (by omega : ¬ coords.length < 2)]
    simp
  · intro coords w
    unfold leftRightPairs
    rw [length_filterMap_eq_countP]
    apply List.countP_congr
    intro i _
    by_cases hi : sqrtFn (tLenSq coords i) < epsQ
    · simp [hi, not_le.mpr hi]
    · simp [hi, not_lt.mp hi]

/-- A square-root oracle exact on 25 (for the 3-4-5 witness segment). -/
def sqFn5 : ℚ → ℚ := fun x => if x = 25 then 5 else 0

/-- C7 witness: the segment (0,0)–(3,4) of length 5 buffered at width 2
yields exactly one quad with corners at squared distance 1 from the
endpoints, and the general quad-count law holds on it. -/
theorem bufferLineString_spec_witness :
    (bufferLineString sqFn5 [((0:ℚ),(0:ℚ)), (3,4)] 2 =
      [ [ ptAdd (0,0) (perpAt sqFn5 [(0,0),(3,4)] 0 2),
          ptSub (0,0) (perpAt sqFn5 [(0,0),(3,4)] 0 2),
          ptSub (3,4) (perpAt sqFn5 [(0,0),(3,4)] 0 2),
          ptAdd (3,4) (perpAt sqFn5 [(0,0),(3,4)] 0 2) ] ] ∧
      distSq (ptAdd (0,0) (perpAt sqFn5 [(0,0),(3,4)] 0 2)) (0,0) = 2 * 2 / 4 ∧
      distSq (ptSub (0,0) (perpAt sqFn5 [(0,0),(3,4)] 0 2)) (0,0) = 2 * 2 / 4 ∧
      distSq (ptSub (3,4) (perpAt sqFn5 [(0,0),(3,4)] 0 2)) (3,4) = 2 * 2 / 4 ∧
      distSq (ptAdd (3,4) (perpAt sqFn5 [(0,0),(3,4)] 0 2)) (3,4) = 2 * 2 / 4 ∧
      dotQ (perpAt sqFn5 [(0,0),(3,4)] 0 2) (ptSub (3,4) (0,0)) = 0) ∧
    (bufferLineString sqFn5 [((0:ℚ),(0:ℚ)),(3,4)] 2).length =
      (leftRightPairs sqFn5 [((0:ℚ),(0:ℚ)),(3,4)] 2).length - 1 :=
  ⟨(bufferLineString_spec sqFn5).1 (0,0) (3,4) 2
      (by norm_num [sqFn5, tLenSq, tangentAt])
      (by norm_num [sqFn5, tLenSq, tangentAt, epsQ]),
   (bufferLineString_spec sqFn5).2.1 [((0:ℚ),(0:ℚ)),(3,4)] 2 (by norm_num)⟩

/-- The character of a decimal digit. -/
def digitChar (d : ℕ) : Char := Char.ofNat (48 + d)

def natCharsAux : ℕ → ℕ → List Char
  | 0, _ => []
  | fuel + 1, n =>
    if n = 0 then [] else natCharsAux fuel (n / 10) ++ [digitChar (n % 10)]

/-- Decimal digits of a natural number, most significant first. -/
def natChars (n : ℕ) : List Char := if n = 0 then ['0'] else natCharsAux n n

/-- `|q| * 10^6` rounded half-up, as in `toFixed(6)`. -/
def round6 (q : ℚ) : ℤ := ⌊|q| * 1000000 + 1 / 2⌋

/-- The `toFixed(6)` fixed-point rendering of a number: optional sign,
integer digits, a dot, and exactly 6 fraction digits. -/
def fmt6 (q : ℚ) : List Char :=
  (if q < 0 then ['-'] else []) ++ natChars ((round6 q).toNat / 1000000) ++
    ('.' :: (List.replicate (6 - (natChars ((round6 q).toNat % 1000000)).length) '0' ++
      natChars ((round6 q).toNat % 1000000)))

theorem dot_not_mem_natCharsAux (fuel : ℕ) : ∀ n : ℕ, '.' ∉ natCharsAux fuel n := by
  induction fuel with
  | zero => intro n; simp [natCharsAux]
  | succ fuel ih =>
    intro n
    unfold natCharsAux
    by_cases h0 : n = 0
    · simp [h0]
    · rw [if_neg h0]
      intro hmem
      rcases List.mem_append.mp hmem with hmem' | hmem'
      · exact ih (n / 10) hmem'
      · have hd : n % 10 < 10 := Nat.mod_lt _ (by norm_num)
        have := List.mem_singleton.mp hmem'
        interval_cases h : (n % 10) <;> simp_all [digitChar]

theorem dot_not_mem_natChars (n : ℕ) : '.' ∉ natChars n := by
  unfold natChars
  split
  · decide
  · exact dot_not_mem_natCharsAux n n

theorem natCharsAux_length_le (fuel : ℕ) :
    ∀ n k : ℕ, n < 10 ^ k → (natCharsAux fuel n).length ≤ k := by
  induction fuel with
  | zero => intro n k _; simp [natCharsAux]
  | succ fuel ih =>
    intro n k hk
    unfold natCharsAux
    by_cases h0 : n = 0
    · simp [h0]
    · rw [if_neg h0]
      cases k with
      | zero => simp at hk; omega
      | succ k =>
        have hdiv : n / 10 < 10 ^ k := by
          rw [Nat.div_lt_iff_lt_mul (by norm_num)]
          calc n < 10 ^ (k + 1) := hk
            _ = 10 ^ k * 10 := by ring
        have := ih (n / 10) k hdiv
        simp only [List.length_append, List.length_singleton]
        omega

theorem natChars_length_le (n k : ℕ) (hk : 0 < k) (h : n < 10 ^ k) :
    (natChars n).length ≤ k := by
  unfold natChars
  split
  · simpa using hk
  · exact natCharsAux_length_le n n k h

/-- JS `vertices[face[i]]`: an in-range index reads the vertex; a
negative or out-of-range index yields `undefined`, so the component
accesses on the next line throw — modelled as `none`. -/
def vget (vs : List Vtx) (i : ℤ) : Option Vtx :=
  if 0 ≤ i then vs.get? i.toNat else none

/-- The face normal before normalization: (v1−v0) × (v2−v0). -/
def crossNormal (v0 v1 v2 : Vtx) : Vtx :=
  ((v1.2.1 - v0.2.1) * (v2.2.2 - v0.2.2) - (v1.2.2 - v0.2.2) * (v2.2.1 - v0.2.1),
   (v1.2.2 - v0.2.2) * (v2.1 - v0.1) - (v1.1 - v0.1) * (v2.2.2 - v0.2.2),
   (v1.1 - v0.1) * (v2.2.1 - v0.2.1) - (v1.2.1 - v0.2.1) * (v2.1 - v0.1))

/-- Squared length of the cross product. -/
def crossLenSq (v0 v1 v2 : Vtx) : ℚ :=
  (crossNormal v0 v1 v2).1 * (crossNormal v0 v1 v2).1 +
    (crossNormal v0 v1 v2).2.1 * (crossNormal v0 v1 v2).2.1 +
    (crossNormal v0 v1 v2).2.2 * (crossNormal v0 v1 v2).2.2

/-- The emitted facet normal: the cross product normalized by the oracle
length when it exceeds the epsilon, else the substitute +Z unit normal. -/
def normalOf (sqrtFn : ℚ → ℚ) (v0 v1 v2 : Vtx) : Vtx :=
  if sqrtFn (crossLenSq v0 v1 v2) > epsQ then
    ((crossNormal v0 v1 v2).1 / sqrtFn (crossLenSq v0 v1 v2),
     (crossNormal v0 v1 v2).2.1 / sqrtFn (crossLenSq v0 v1 v2),
     (crossNormal v0 v1 v2).2.2 / sqrtFn (crossLenSq v0 v1 v2))
  else (0, 0, 1)

/-- Three space-separated formatted numbers. -/
def tripleChars (a b c : ℚ) : List Char :=
  fmt6 a ++ ' ' :: (fmt6 b ++ ' ' :: fmt6 c)

/-- One iteration of the `faces.forEach` body: a face without exactly 3
indices is skipped (no lines, no reads); a 3-index face reads its three
vertices — `none` (the thrown TypeError) when any read is out of range —
and emits its 7-line facet block. -/
def faceLinesE (sqrtFn : ℚ → ℚ) (vertices : List Vtx) (face : List ℤ) :
    Option (List (List Char)) :=
  if face.length = 3 then
    match vget vertices (face.getD 0 0), vget vertices (face.getD 1 0),
        vget vertices (face.getD 2 0) with
    | some v0, some v1, some v2 =>
      some
        [ "  facet normal ".data ++
            tripleChars (normalOf sqrtFn v0 v1 v2).1 (normalOf sqrtFn v0 v1 v2).2.1
              (normalOf sqrtFn v0 v1 v2).2.2,
          "    outer loop".data,
          "      vertex ".data ++ tripleChars v0.1 v0.2.1 v0.2.2,
          "      vertex ".data ++ tripleChars v1.1 v1.2.1 v1.2.2,
          "      vertex ".data ++ tripleChars v2.1 v2.2.1 v2.2.2,
          "    endloop".data,
          "  endfacet".data ]
    | _, _, _ => none
  else some []

/-- The facet block of an in-bounds face: the list `faceLinesE` wraps in
`some` when all three vertex reads succeed. -/
def faceLinesOk (sqrtFn : ℚ → ℚ) (vertices : List Vtx) (face : List ℤ) :
    List (List Char) :=
  if face.length = 3 then
    [ "  facet normal ".data ++
        tripleChars
          (normalOf sqrtFn ((vget vertices (face.getD 0 0)).getD (0, 0, 0))
            ((vget vertices (face.getD 1 0)).getD (0, 0, 0))
            ((vget vertices (face.getD 2 0)).getD (0, 0, 0))).1
          (normalOf sqrtFn ((vget vertices (face.getD 0 0)).getD (0, 0, 0))
            ((vget vertices (face.getD 1 0)).getD (0, 0, 0))
            ((vget vertices (face.getD 2 0)).getD (0, 0, 0))).2.1
          (normalOf sqrtFn ((vget vertices (face.getD 0 0)).getD (0, 0, 0))
            ((vget vertices (face.getD 1 0)).getD (0, 0, 0))
            ((vget vertices (face.getD 2 0)).getD (0, 0, 0))).2.2,
      "    outer loop".data,
      "      vertex ".data ++
        tripleChars ((vget vertices (face.getD 0 0)).getD (0, 0, 0)).1
          ((vget vertices (face.getD 0 0)).getD (0, 0, 0)).2.1
          ((vget vertices (face.getD 0 0)).getD (0, 0, 0)).2.2,
      "      vertex ".data ++
        tripleChars ((vget vertices (face.getD 1 0)).getD (0, 0, 0)).1
          ((vget vertices (face.getD 1 0)).getD (0, 0, 0)).2.1
          ((vget vertices (face.getD 1 0)).getD (0, 0, 0)).2.2,
      "      vertex ".data ++
        tripleChars ((vget vertices (face.getD 2 0)).getD (0, 0, 0)).1
          ((vget vertices (face.getD 2 0)).getD (0, 0, 0)).2.1
          ((vget vertices (face.getD 2 0)).getD (0, 0, 0)).2.2,
      "    endloop".data,
      "  endfacet".data ]
  else []

/-- JS `String.replace` with a string pattern: remove the *first*
occurrence of the pattern. -/
def replaceOnce (pat : List Char) : List Char → List Char
  | [] => []
  | c :: rest =>
    if pat.isPrefixOf (c :: rest) then (c :: rest).drop pat.length
    else c :: replaceOnce pat rest

/-- The `<name>` used in the solid/endsolid lines:
`filename.replace('.stl', '')`. -/
def stlName (filename : List Char) : List Char := replaceOnce ".stl".data filename

/-- The output lines of `generateSTL`: the solid header, the facet
blocks in face order, and the endsolid footer; `none` when serializing a
face throws. -/
def stlLines (sqrtFn : ℚ → ℚ) (vertices : List Vtx) (faces : List (List ℤ))
    (filename : List Char) : Option (List (List Char)) :=
  (faces.mapM (faceLinesE sqrtFn vertices)).map (fun blocks =>
    ("solid ".data ++ stlName filename) ::
      (blocks.flatten ++ ["endsolid ".data ++ stlName filename]))

/-- `generateSTL(vertices, faces, filename)` as text (every emitted line
followed by a newline), or `none` when an out-of-bounds vertex read makes
the call throw. -/
def generateSTL (sqrtFn : ℚ → ℚ) (vertices : List Vtx) (faces : List (List ℤ))
    (filename : List Char) : Option (List Char) :=
  (stlLines sqrtFn vertices faces filename).map
    (fun ls => ls.flatMap (fun l => l ++ ['\n']))

/-- The name the claim describes: the filename with a ".stl" *suffix*
removed. -/
def suffixStripStl (fn : List Char) : List Char :=
  if 4 ≤ fn.length ∧ fn.drop (fn.length - 4) = ".stl".data then
    fn.take (fn.length - 4)
  else fn

/-- C8 counterexample: two failures of the claim.  First, the name:
`replace('.stl', '')` removes the *first* occurrence of ".stl", not a
suffix, so for filename "a.stl.txt" the emitted name is "a.txt" while
the claimed suffix-stripping would leave "a.stl.txt" unchanged, and the
claimed solid line is not a prefix of the output.  Second, "never
fails": a mesh with a 3-index face holding an out-of-range index makes
the JS throw on the undefined vertex (modelled `none`) instead of
producing a facet block. -/
theorem generateSTL_claim_counterexample :
    stlName "a.stl.txt".data = "a.txt".data ∧
    suffixStripStl "a.stl.txt".data = "a.stl.txt".data ∧
    ("solid ".data ++ suffixStripStl "a.stl.txt".data ++ ['\n']).isPrefixOf
        ((generateSTL (fun _ => 0) [] [] "a.stl.txt".data).getD []) = false ∧
    ("solid ".data ++ stlName "a.stl.txt".data ++ ['\n']).isPrefixOf
        ((generateSTL (fun _ => 0) [] [] "a.stl.txt".data).getD []) = true ∧
    generateSTL (fun _ => 0) [(0, 0, 0)] [[0, 1, 2]] "m.stl".data = none := by
  refine ⟨?_, ?_, ?_, ?_, ?_⟩ <;> decide

theorem faceLinesOk_facet_count (sqrtFn : ℚ → ℚ) (vertices : List Vtx)
    (f : List ℤ) (h : f.length = 3) :
    (faceLinesOk sqrtFn vertices f).countP
      (fun l => decide (l.take 3 = "  f".data)) = 1 := by
  have hf : ∀ xs : List Char, ("  facet normal ".data ++ xs).take 3 = "  f".data := by
    intro xs
    rw [List.take_append_of_le_length (by decide)]
    decide
  have hv : ∀ xs : List Char, ("      vertex ".data ++ xs).take 3 = "   ".data := by
    intro xs
    rw [List.take_append_of_le_length (by decide)]
    decide
  unfold faceLinesOk
  rw [if_pos h]
  simp only [List.countP_cons, List.countP_nil, decide_eq_true_eq, hf, hv]
  decide

theorem countP_flatMap_one {α : Type _} (l : List α) (g : α → List (List Char))
    (p : List Char → Bool) (h : ∀ x ∈ l, (g x).countP p = 1) :
    (l.flatMap g).countP p = l.length := by
  induction l with
  | nil => rfl
  | cons a t ih =>
    rw [List.flatMap_cons, List.countP_append, h a (by simp),
      ih (fun x hx => h x (by simp [hx])), List.length_cons]
    omega

theorem mapM_eq_some_map {α β : Type _} (l : List α) (f : α → Option β) (g : α → β)
    (h : ∀ x ∈ l, f x = some (g x)) : l.mapM f = some (l.map g) := by
  induction l with
  | nil => rfl
  | cons a t ih =>
    rw [List.mapM_cons, h a (by simp), ih (fun x hx => h x (by simp [hx]))]
    rfl

theorem flatten_map_eq_flatMap {α β : Type _} (l : List α) (g : α → List β) :
    (l.map g).flatten = l.flatMap g := by
  induction l with
  | nil => rfl
  | cons a t ih => simp [List.flatMap_cons, ih]

theorem faceLinesE_eq_some (sqrtFn : ℚ → ℚ) (vertices : List Vtx) (f : List ℤ)
    (h3 : f.length = 3)
    (hidx : ∀ i ∈ f, 0 ≤ i ∧ i < (vertices.length : ℤ)) :
    faceLinesE sqrtFn vertices f = some (faceLinesOk sqrtFn vertices f) := by
  have hv : ∀ j : ℕ, j < 3 → ∃ v, vget vertices (f.getD j 0) = some v := by
    intro j hj
    have hmem : f.getD j 0 ∈ f := by
      rw [List.getD_eq_getElem f 0 (by omega)]
      exact List.getElem_mem _
    obtain ⟨h0, hlt⟩ := hidx _ hmem
    have hlt2 : (f.getD j 0).toNat < vertices.length := by omega
    unfold vget
    rw [if_pos h0]
    exact ⟨vertices.get ⟨(f.getD j 0).toNat, hlt2⟩, List.get?_eq_get hlt2⟩
  obtain ⟨w0, hw0⟩ := hv 0 (by omega)
  obtain ⟨w1, hw1⟩ := hv 1 (by omega)
  obtain ⟨w2, hw2⟩ := hv 2 (by omega)
  unfold faceLinesE faceLinesOk
  rw [if_pos h3, if_pos h3, hw0, hw1, hw2]
  simp

/-- C8 amended: for a mesh whose faces all have exactly 3 *in-bounds*
indices (a negative or out-of-range index makes the JS throw on the
undefined vertex — modelled as `none` — so the original "never fails" is
restricted to in-bounds meshes), the serializer succeeds; its text
starts with the `solid <name>` line and ends with the matching
`endsolid <name>` line, where `<name>` removes the *first* occurrence of
".stl" from the filename; exactly one emitted line per face starts a
`facet normal` block; a face whose cross-product length (as reported by
the square-root oracle) is below 1e-10 gets the substitute normal
(0, 0, 1); and every formatted float has exactly 6 digits after its
single decimal dot. -/
theorem generateSTL_spec (sqrtFn : ℚ → ℚ) (vertices : List Vtx)
    (faces : List (List ℤ)) (filename : List Char)
    (h3 : ∀ f ∈ faces, f.length = 3)
    (hidx : ∀ f ∈ faces, ∀ i ∈ f, 0 ≤ i ∧ i < (vertices.length : ℤ)) :
    ∃ lines : List (List Char),
      stlLines sqrtFn vertices faces filename = some lines ∧
      generateSTL sqrtFn vertices faces filename =
        some (lines.flatMap (fun l => l ++ ['\n'])) ∧
      ("solid ".data ++ stlName filename ++ ['\n']) <+:
        lines.flatMap (fun l => l ++ ['\n']) ∧
      ("endsolid ".data ++ stlName filename ++ ['\n']) <:+
        lines.flatMap (fun l => l ++ ['\n']) ∧
      lines.countP (fun l => decide (l.take 3 = "  f".data)) = faces.length ∧
      (∀ v0 v1 v2 : Vtx, sqrtFn (crossLenSq v0 v1 v2) < epsQ →
          normalOf sqrtFn v0 v1 v2 = (0, 0, 1)) ∧
      (∀ q : ℚ, ∃ pre post : List Char,
          fmt6 q = pre ++ '.' :: post ∧ post.length = 6 ∧ '.' ∉ pre ∧ '.' ∉ post) := by
  have hmapm : faces.mapM (faceLinesE sqrtFn vertices) =
      some (faces.map (faceLinesOk sqrtFn vertices)) :=
    mapM_eq_some_map _ _ _
      (fun f hf => faceLinesE_eq_some sqrtFn vertices f (h3 f hf) (hidx f hf))
  have hlines : stlLines sqrtFn vertices faces filename =
      some (("solid ".data ++ stlName filename) ::
        (faces.flatMap (faceLinesOk sqrtFn vertices) ++
          ["endsolid ".data ++ stlName filename])) := by
    unfold stlLines
    rw [hmapm, Option.map_some', flatten_map_eq_flatMap]
  have htext : (("solid ".data ++ stlName filename) ::
        (faces.flatMap (faceLinesOk sqrtFn vertices) ++
          ["endsolid ".data ++ stlName filename])).flatMap (fun l => l ++ ['\n']) =
      ("solid ".data ++ stlName filename ++ ['\n']) ++
        ((faces.flatMap (faceLinesOk sqrtFn vertices)).flatMap (fun l => l ++ ['\n']) ++
          ("endsolid ".data ++ stlName filename ++ ['\n'])) := by
    rw [List.flatMap_cons, List.flatMap_append]
    simp [List.append_assoc]
  refine ⟨_, hlines, ?_, ?_, ?_, ?_, ?_, ?_⟩
  · unfold generateSTL
    rw [hlines, Option.map_some']
  · rw [htext]
    exact List.prefix_append _ _
  · rw [htext]
    exact (List.suffix_append _ _).trans (List.suffix_append _ _)
  · rw [List.countP_cons, List.countP_append,
      countP_flatMap_one _ _ _
        (fun f hf => faceLinesOk_facet_count sqrtFn vertices f (h3 f hf))]
    have hsolid : (("solid ".data ++ stlName filename).take 3) = "sol".data := by
      rw [List.take_append_of_le_length (by decide)]
      decide
    have hend : (("endsolid ".data ++ stlName filename).take 3) = "end".data := by
      rw [List.take_append_of_le_length (by decide)]
      decide
    simp only [List.countP_cons, List.countP_nil, decide_eq_true_eq, hsolid, hend]
    rw [if_neg (by decide), if_neg (by decide)]
    omega
  · intro v0 v1 v2 hlt
    unfold normalOf
    rw [if_neg (not_lt.mpr hlt.le)]
  · intro q
    refine ⟨(if q < 0 then ['-'] else []) ++ natChars ((round6 q).toNat / 1000000),
      List.replicate (6 - (natChars ((round6 q).toNat % 1000000)).length) '0' ++
        natChars ((round6 q).toNat % 1000000), ?_, ?_, ?_, ?_⟩
    · unfold fmt6
      rw [List.append_assoc]
    · rw [List.length_append, List.length_replicate]
      have hlt6 : (natChars ((round6 q).toNat % 1000000)).length ≤ 6 := by
        apply natChars_length_le _ 6 (by norm_num)
        have := Nat.mod_lt ((round6 q).toNat) (show 0 < 1000000 by norm_num)
        calc (round6 q).toNat % 1000000 < 1000000 := this
          _ ≤ 10 ^ 6 := by norm_num
      omega
    · intro hmem
      rcases List.mem_append.mp hmem with h' | h'
      · by_cases hq : q < 0
        · rw [if_pos hq] at h'
          exact absurd (List.mem_singleton.mp h') (by decide)
        · rw [if_neg hq] at h'
          exact absurd h' (List.not_mem_nil _)
      · exact dot_not_mem_natChars _ h'
    · intro hmem
      rcases List.mem_append.mp hmem with h' | h'
      · exact absurd (List.eq_of_mem_replicate h') (by decide)
      · exact dot_not_mem_natChars _ h'

/-- The unit-cube faces as serializer input (JS numbers are untyped; the
arena's indices become the serializer's integer indices). -/
def cubeFacesZ : List (List ℤ) :=
  (createSolidBase 1 1).faces.map (List.map (fun i : ℕ => (i : ℤ)))

/-- C8 amended witness: serializing the unit cube (8 vertices, 12
triangular in-bounds faces) succeeds and produces matching
solid/endsolid lines for "cube.stl" → "cube" and exactly 12
facet-normal lines. -/
theorem generateSTL_spec_witness :
    (∀ f ∈ cubeFacesZ, f.length = 3) ∧
    cubeFacesZ.length = 12 ∧
    (∀ f ∈ cubeFacesZ, ∀ i ∈ f,
      0 ≤ i ∧ i < ((createSolidBase 1 1).vertices.length : ℤ)) ∧
    (∃ lines : List (List Char),
      stlLines (fun _ => 0) (createSolidBase 1 1).vertices cubeFacesZ
          "cube.stl".data = some lines ∧
      generateSTL (fun _ => 0) (createSolidBase 1 1).vertices cubeFacesZ
          "cube.stl".data = some (lines.flatMap (fun l => l ++ ['\n'])) ∧
      ("solid ".data ++ stlName "cube.stl".data ++ ['\n']) <+:
        lines.flatMap (fun l => l ++ ['\n']) ∧
      ("endsolid ".data ++ stlName "cube.stl".data ++ ['\n']) <:+
        lines.flatMap (fun l => l ++ ['\n']) ∧
      lines.countP (fun l => decide (l.take 3 = "  f".data)) = cubeFacesZ.length ∧
      (∀ v0 v1 v2 : Vtx, (fun _ => (0:ℚ)) (crossLenSq v0 v1 v2) < epsQ →
          normalOf (fun _ => 0) v0 v1 v2 = (0, 0, 1)) ∧
      (∀ q : ℚ, ∃ pre post : List Char,
          fmt6 q = pre ++ '.' :: post ∧ post.length = 6 ∧ '.' ∉ pre ∧ '.' ∉ post)) :=
  ⟨by decide, by decide, by decide,
   generateSTL_spec (fun _ => 0) (createSolidBase 1 1).vertices cubeFacesZ
     "cube.stl".data (by decide) (by decide)⟩

/-- The structural errors `validateMesh` can report. -/
inductive MeshError
  | noVertices
  | noFaces
  | badFaceLength (faceIdx : ℕ) (len : ℕ)
  | badIndex (faceIdx : ℕ) (vertexIdx : ℤ)
deriving DecidableEq

/-- Per-face structural errors: a wrong index count, else one error per
out-of-bounds (negative or ≥ vertex count) index. -/
def faceErrors (vertices : List Vtx) (p : ℕ × List ℤ) : List MeshError :=
  if p.2.length = 3 then
    p.2.filterMap (fun vi =>
      if vi < 0 ∨ (vertices.length : ℤ) ≤ vi then some (MeshError.badIndex p.1 vi)
      else none)
  else [MeshError.badFaceLength p.1 p.2.length]

/-- `validateMesh(vertices, faces)`: empty-vertices and empty-faces
checks, then the per-face index checks. -/
def validateMesh (vertices : List Vtx) (faces : List (List ℤ)) : List MeshError :=
  ((if vertices.length = 0 then [MeshError.noVertices] else []) ++
    (if faces.length = 0 then [MeshError.noFaces] else [])) ++
  faces.enum.flatMap (faceErrors vertices)

/-- The pipeline's `generateSTL` wrapper: validate, log on failure, and
serialize regardless of the validation outcome. -/
def pipelineGenerateSTL (sqrtFn : ℚ → ℚ) (vertices : List Vtx)
    (faces : List (List ℤ)) (filename : List Char) : Option (List Char) :=
  if (validateMesh vertices faces).isEmpty then
    generateSTL sqrtFn vertices faces filename
  else
    generateSTL sqrtFn vertices faces filename

theorem validateMesh_nil_iff (vertices : List Vtx) (faces : List (List ℤ)) :
    validateMesh vertices faces = [] ↔
      (vertices ≠ [] ∧ faces ≠ [] ∧
        ∀ f ∈ faces, f.length = 3 ∧ ∀ i ∈ f, 0 ≤ i ∧ i < (vertices.length : ℤ)) := by
  unfold validateMesh
  rw [List.append_eq_nil, List.append_eq_nil, List.flatMap_eq_nil_iff]
  constructor
  · rintro ⟨⟨h1, h2⟩, h3⟩
    refine ⟨?_, ?_, ?_⟩
    · intro hv
      rw [hv] at h1
      simp at h1
    · intro hfe
      rw [hfe] at h2
      simp at h2
    · intro f hfmem
      obtain ⟨idx, hidx⟩ : ∃ idx, faces.get? idx = some f := List.get?_of_mem hfmem
      have hmem : (idx, f) ∈ faces.enum := List.mem_enum_iff_get?.mpr hidx
      have hface := h3 (idx, f) hmem
      unfold faceErrors at hface
      by_cases hlen : f.length = 3
      · rw [if_pos hlen] at hface
        refine ⟨hlen, fun i hi => ?_⟩
        have := List.filterMap_eq_nil_iff.mp hface i hi
        by_cases hbad : i < 0 ∨ (vertices.length : ℤ) ≤ i
        · rw [if_pos hbad] at this
          cases this
        · push_neg at hbad
          exact hbad
      · rw [if_neg hlen] at hface
        cases hface
  · rintro ⟨hv, hf, hall⟩
    refine ⟨⟨?_, ?_⟩, ?_⟩
    · rw [if_neg (fun h => hv (List.length_eq_zero.mp h))]
    · rw [if_neg (fun h => hf (List.length_eq_zero.mp h))]
    · intro p hp
      have hpm : p.2 ∈ faces := by
        have := List.mem_enum_iff_get?.mp hp
        exact List.get?_mem this
      obtain ⟨hlen, hbounds⟩ := hall p.2 hpm
      unfold faceErrors
      rw [if_pos hlen]
      rw [List.filterMap_eq_nil_iff]
      intro i hi
      rw [if_neg]
      push_neg
      exact hbounds i hi

/-- C9: `validateMesh` reports a non-empty error list exactly when the
vertex list is empty, the face list is empty, some face does not have 3
indices, or some index is negative or not below the vertex count; and a
failing validation does not block output: the pipeline wrapper always
returns the serializer's text. -/
theorem validateMesh_spec (vertices : List Vtx) (faces : List (List ℤ)) :
    (validateMesh vertices faces ≠ [] ↔
      (vertices = [] ∨ faces = [] ∨
        ∃ f ∈ faces, f.length ≠ 3 ∨ ∃ i ∈ f, i < 0 ∨ (vertices.length : ℤ) ≤ i)) ∧
    (∀ (sqrtFn : ℚ → ℚ) (filename : List Char),
      pipelineGenerateSTL sqrtFn vertices faces filename =
        generateSTL sqrtFn vertices faces filename) := by
  constructor
  · rw [ne_eq, validateMesh_nil_iff]
    constructor
    · intro h
      rcases not_and_or.mp h with h | h
      · exact Or.inl (not_ne_iff.mp h)
      · rcases not_and_or.mp h with h | h
        · exact Or.inr (Or.inl (not_ne_iff.mp h))
        · right; right
          rw [not_forall] at h
          obtain ⟨f, hf⟩ := h
          rw [Classical.not_imp] at hf
          obtain ⟨hfm, hnp⟩ := hf
          refine ⟨f, hfm, ?_⟩
          rcases not_and_or.mp hnp with h' | h'
          · exact Or.inl h'
          · right
            rw [not_forall] at h'
            obtain ⟨i, hi⟩ := h'
            rw [Classical.not_imp] at hi
            obtain ⟨him, hnb⟩ := hi
            refine ⟨i, him, ?_⟩
            rcases not_and_or.mp hnb with h'' | h''
            · exact Or.inl (not_le.mp h'')
            · exact Or.inr (not_lt.mp h'')
    · rintro (hv | hfe | ⟨f, hfm, hbad⟩) ⟨h1, h2, h3⟩
      · exact h1 hv
      · exact h2 hfe
      · obtain ⟨hlen, hbounds⟩ := h3 f hfm
        rcases hbad with h' | ⟨i, him, h'⟩
        · exact h' hlen
        · obtain ⟨hge, hlt⟩ := hbounds i him
          rcases h' with h'' | h''
          · exact absurd hge (not_le.mpr h'')
          · exact absurd hlt (not_lt.mpr h'')
  · intro sqrtFn filename
    unfold pipelineGenerateSTL
    split <;> rfl

/-- C9 witness: the empty mesh validates with errors, a cube face with
an out-of-range index produces an index error, the unit cube validates
cleanly, and the wrapper output equals the serializer output even for an
invalid mesh. -/
theorem validateMesh_spec_witness :
    (validateMesh [] [] ≠ []) ∧
    (validateMesh (createSolidBase 1 1).vertices [[0, 1, 99]] ≠ []) ∧
    (validateMesh (createSolidBase 1 1).vertices cubeFacesZ = []) ∧
    pipelineGenerateSTL (fun _ => 0) [] [] "m.stl".data =
      generateSTL (fun _ => 0) [] [] "m.stl".data :=
  ⟨(validateMesh_spec [] []).1.mpr (Or.inl rfl),
   (validateMesh_spec (createSolidBase 1 1).vertices [[0, 1, 99]]).1.mpr
     (Or.inr (Or.inr ⟨[0, 1, 99], by decide, Or.inr ⟨99, by decide, Or.inr (by decide)⟩⟩)),
   by decide,
   (validateMesh_spec [] []).2 (fun _ => 0) "m.stl".data⟩
